import Mathlib

/- Shallow embedding of the PokerCount group-expense tracker's computational
   core: the frontend ledger/statistics helpers, the settlement list update,
   the add/edit-session form arithmetic, and the settlement engine's debt
   matcher.  Every definition is translated from the repository sources,
   except where a doc comment marks it as modelled from the specification
   (the matcher itself lives in the backend, which only the spec describes). -/

namespace PokerCount

/-! ### Group dashboard data model and statistics
    From `src/frontend/app/group/[groupName]/dashboard/page.tsx`. -/

namespace Dashboard

/-- `interface Balance` of the dashboard page (amounts are currency values). -/
structure Balance where
  id : ℕ
  amount : ℚ
  session_id : ℕ
  player_id : ℕ
deriving DecidableEq

/-- `interface Session` of the dashboard page. -/
structure Session where
  id : ℕ
  name : String
  date : String
  buy_in : ℚ
  group_id : ℕ
  balances : List Balance
deriving DecidableEq

/-- `getPlayerTotalWinnings` (dashboard page, lines 161-166): fold over the
sessions adding the player's balance amount, `0` when the player has no
balance record in a session (`playerBalance?.amount || 0`). -/
def getPlayerTotalWinnings (playerId : ℕ) (sessions : List Session) : ℚ :=
  sessions.foldl
    (fun total session =>
      total + (((session.balances.find? (fun b => b.player_id == playerId)).map
        Balance.amount).getD 0))
    0

/-- The participation test `session.balances?.some(b => b.player_id === playerId)`
used by `calculateWinRate` (and `countPlayerSessions`). -/
def participates (playerId : ℕ) (session : Session) : Bool :=
  session.balances.any (fun b => b.player_id == playerId)

/-- The win test of `calculateWinRate`:
`playerBalance && playerBalance.amount > 0` on the first found balance. -/
def wonSession (playerId : ℕ) (session : Session) : Bool :=
  match session.balances.find? (fun b => b.player_id == playerId) with
  | some b => decide (0 < b.amount)
  | none => false

/-- `calculateWinRate` (dashboard page, lines 168-181): `0` when the player
participated in no session, otherwise `Math.round((winCount / playerSessions.length) * 100)`. -/
def calculateWinRate (playerId : ℕ) (sessions : List Session) : ℤ :=
  let playerSessions := sessions.filter (fun session => participates playerId session)
  if playerSessions.length = 0 then 0
  else
    let winCount := (playerSessions.filter (fun session => wonSession playerId session)).length
    round (((winCount : ℚ) / (playerSessions.length : ℚ)) * 100)

/-- Specification-side description of one session's contribution to a player's
net position: the player's balance amount in the session, `0` when the player
has no balance record there. -/
def sessionAmount (playerId : ℕ) (session : Session) : ℚ :=
  match session.balances.find? (fun b => b.player_id == playerId) with
  | some b => b.amount
  | none => 0

/-- Two concrete sessions in which player 1 participates, winning one. -/
def demoSessions : List Session :=
  [{ id := 1, name := "friday", date := "2024-01-05", buy_in := 20, group_id := 1,
     balances := [{ id := 1, amount := 5, session_id := 1, player_id := 1 }] },
   { id := 2, name := "sunday", date := "2024-01-07", buy_in := 20, group_id := 1,
     balances := [{ id := 2, amount := -5, session_id := 2, player_id := 1 }] }]

end Dashboard

/-! ### Session detail view
    From `src/frontend/app/group/[groupName]/session/[sessionId]/page.tsx`
    (the edit-session form of `src/unnamed/part_004` shares the same
    `Player`/`Balance`/`Session` interfaces). -/

namespace SessionView

structure Player where
  id : ℕ
  name : String
deriving DecidableEq

structure Balance where
  id : ℕ
  amount : ℚ
  player : Player
deriving DecidableEq

structure Session where
  id : ℕ
  name : String
  date : String
  buy_in : ℚ
  balances : List Balance
deriving DecidableEq

/-- The total preorder realised by the JS comparator
`(a, b) => b.amount - a.amount` (amount descending); `Array.prototype.sort`
is stable, which `List.insertionSort` with this non-strict relation models. -/
def winnersLE (a b : Balance) : Prop := b.amount ≤ a.amount

instance : DecidableRel winnersLE := fun a b =>
  inferInstanceAs (Decidable (b.amount ≤ a.amount))

instance : IsTotal Balance winnersLE := ⟨fun a b => le_total b.amount a.amount⟩

instance : IsTrans Balance winnersLE := ⟨fun _ _ _ hab hbc => le_trans hbc hab⟩

/-- The total preorder realised by the JS comparator
`(a, b) => a.amount - b.amount` (amount ascending). -/
def losersLE (a b : Balance) : Prop := a.amount ≤ b.amount

instance : DecidableRel losersLE := fun a b =>
  inferInstanceAs (Decidable (a.amount ≤ b.amount))

instance : IsTotal Balance losersLE := ⟨fun a b => le_total a.amount b.amount⟩

instance : IsTrans Balance losersLE := ⟨fun _ _ _ hab hbc => le_trans hab hbc⟩

/-- `getWinners` (session page, lines 96-100): `[]` when no session is loaded,
otherwise the balances with `amount > 0` sorted by
`(a, b) => b.amount - a.amount`. -/
def getWinners (session : Option Session) : List Balance :=
  match session with
  | none => []
  | some s => List.insertionSort winnersLE (s.balances.filter (fun b => decide (0 < b.amount)))

/-- `getLosers` (session page, lines 102-106): `[]` when no session is loaded,
otherwise the balances with `amount < 0` sorted by
`(a, b) => a.amount - b.amount`. -/
def getLosers (session : Option Session) : List Balance :=
  match session with
  | none => []
  | some s => List.insertionSort losersLE (s.balances.filter (fun b => decide (b.amount < 0)))

/-- The ordering demanded by the specification's partitioning sentence:
magnitude (here: amount) descending, ties broken by player id ascending. -/
def claimOrder (a b : Balance) : Prop :=
  b.amount < a.amount ∨ (a.amount = b.amount ∧ a.player.id ≤ b.player.id)

instance : DecidableRel claimOrder := fun a b =>
  inferInstanceAs (Decidable (b.amount < a.amount ∨ (a.amount = b.amount ∧ a.player.id ≤ b.player.id)))

/-- The winners list as the specification describes it: balances with amount
strictly above the tolerance, sorted by magnitude descending with ties broken
by player id ascending.  Used to compare the spec's sentence with `getWinners`. -/
def getWinnersClaim (tol : ℚ) (s : Session) : List Balance :=
  List.insertionSort claimOrder (s.balances.filter (fun b => decide (tol < b.amount)))

/-- `fetchSession` of the edit-session form (`src/unnamed/part_004`,
lines 164-175): for every balance record it derives the initial cash-out
form value `balance.amount + session.buy_in`, keyed by the player's id. -/
def initialCashOuts (s : Session) : List (ℕ × ℚ) :=
  s.balances.map (fun b => (b.player.id, b.amount + s.buy_in))

/-- Concrete players and balances witnessing the tie-break behaviour of
`getWinners`: two equal winning amounts, players listed in descending id. -/
def cxPlayerHigh : Player := { id := 2, name := "Bea" }

def cxPlayerLow : Player := { id := 1, name := "Abe" }

def cxBalanceHigh : Balance := { id := 10, amount := 5, player := cxPlayerHigh }

def cxBalanceLow : Balance := { id := 11, amount := 5, player := cxPlayerLow }

def cxSession : Session :=
  { id := 1, name := "tie", date := "2024-01-01", buy_in := 20,
    balances := [cxBalanceHigh, cxBalanceLow] }

end SessionView

/-! ### Settlements page
    From `src/frontend/app/settlements/[groupName]/page.tsx`. -/

namespace Settlements

/-- `interface Settlement` of the settlements page. -/
structure Settlement where
  text : String
  «from» : String
  «to» : String
  amount : ℚ
  settled : Bool
  id : String
deriving DecidableEq

/-- `handleMarkAsSettled` (settlements page, lines 71-85), the local state
update applied after a successful `markSettlementAsSettled` call: map over the
list setting `settled = true` on the entry whose id matches, spreading all
other fields unchanged. -/
def handleMarkAsSettled (settlements : List Settlement) (settlementId : String) :
    List Settlement :=
  settlements.map (fun settlement =>
    if settlement.id = settlementId then { settlement with settled := true } else settlement)

/-- A concrete settlement list for evaluating the update at. -/
def demoS1 : Settlement :=
  { text := "Abe pays Bea", «from» := "Abe", «to» := "Bea", amount := 10,
    settled := false, id := "s1" }

def demoS2 : Settlement :=
  { text := "Cal pays Bea", «from» := "Cal", «to» := "Bea", amount := 20,
    settled := false, id := "s2" }

def demoSettlements : List Settlement := [demoS1, demoS2]

def demoS1Settled : Settlement := { demoS1 with settled := true }

/-- A list on which the matching entry is already settled. -/
def demoAllSettled : List Settlement := [demoS1Settled, demoS2]

end Settlements

/-! ### Add-session form
    From `src/unnamed/part_002` (`AddSessionPage`). -/

namespace AddSession

/-- One row of the add-session form: the player's name, the final-chips field
(`none` models an empty input, otherwise the parsed number), and the
participation toggle. -/
structure PlayerForm where
  name : String
  chips : Option ℚ
  participating : Bool
deriving DecidableEq

/-- The form state: the buy-in field (`none` models an empty input) and the
per-player rows. -/
structure FormState where
  buyIn : Option ℚ
  players : List PlayerForm
deriving DecidableEq

/-- `calculateTotalProfitLoss` (`src/unnamed/part_002`, lines 362-372): over
all rows, skip non-participants, otherwise add `chips - buyIn`, empty fields
counting as `0`. -/
def calculateTotalProfitLoss (st : FormState) : ℚ :=
  let buyInAmount := st.buyIn.getD 0
  st.players.foldl
    (fun total p =>
      if !p.participating then total
      else total + (p.chips.getD 0 - buyInAmount))
    0

/-- The Save Session button's disabled condition
(`src/unnamed/part_002`, line 707):
`submitting || Math.abs(calculateTotalProfitLoss()) > 1`. -/
def saveDisabled (submitting : Bool) (st : FormState) : Bool :=
  submitting || decide (1 < |calculateTotalProfitLoss st|)

/-- The same component's zero-sum validity indicator
(`src/unnamed/part_002`, lines 546 and 552):
`Math.abs(calculateTotalProfitLoss()) < 0.01` shows
"Balances are correctly distributed". -/
def balancesCorrectlyDistributed (st : FormState) : Bool :=
  decide (|calculateTotalProfitLoss st| < (0.01 : ℚ))

/-- A form state whose balances are off by half a currency unit: one
participant cashed out 100.50 chips on a 100 buy-in. -/
def cxFormState : FormState :=
  { buyIn := some 100,
    players := [{ name := "Abe", chips := some (100.5 : ℚ), participating := true }] }

end AddSession

/-! ### The settlement engine's Debt Matcher
    The engine itself is backend code that is not part of the frontend
    sources; it is modelled here from the specification (spec.md §4.2). -/

namespace Matcher

/-- Modelled from the spec: a computed transaction `{from, to, amount}`
(`from` pays `to`), amounts in exact integer minor units (spec §4.1-4.2). -/
structure Txn where
  «from» : ℕ
  «to» : ℕ
  amount : ℤ
deriving DecidableEq

/-- Modelled from the spec: the deterministic work-list order, magnitude
descending with ties broken by player id ascending (spec §4.2). -/
def entryLE (a b : ℕ × ℤ) : Prop :=
  b.2 < a.2 ∨ (a.2 = b.2 ∧ a.1 ≤ b.1)

instance : DecidableRel entryLE := fun a b =>
  inferInstanceAs (Decidable (b.2 < a.2 ∨ (a.2 = b.2 ∧ a.1 ≤ b.1)))

/-- Modelled from the spec: the greedy matching loop (spec §4.2).  Each round
takes the largest-magnitude creditor and debtor, settles
`amount = min(creditor_remaining, debtor_remaining)`, emits
`debtor → creditor : amount`, subtracts it from both remainders and drops a
side once its remainder no longer exceeds the tolerance `eps` (on exact
integer minor units, the spec's "falls below ε" with ε of one minor unit is
the condition `remainder ≤ 0`, the `eps = 0` instance used below).  The fuel
argument bounds the rounds; `creditors.length + debtors.length` rounds always
suffice because every round retires at least one work-list entry. -/
def settleLoop (eps : ℤ) : ℕ → List (ℕ × ℤ) → List (ℕ × ℤ) → List Txn
  | 0, _, _ => []
  | _ + 1, [], _ => []
  | _ + 1, _ :: _, [] => []
  | fuel + 1, c :: cs, d :: ds =>
    ⟨d.1, c.1, min c.2 d.2⟩ ::
      settleLoop eps fuel
        (if c.2 - min c.2 d.2 ≤ eps then cs else (c.1, c.2 - min c.2 d.2) :: cs)
        (if d.2 - min c.2 d.2 ≤ eps then ds else (d.1, d.2 - min c.2 d.2) :: ds)

/-- Modelled from the spec: the creditor work-list, players with net above the
tolerance, sorted magnitude descending with id tie-break (spec §4.2). -/
def creditors (eps : ℤ) (nets : List (ℕ × ℤ)) : List (ℕ × ℤ) :=
  List.insertionSort entryLE (nets.filter (fun e => decide (eps < e.2)))

/-- Modelled from the spec: the debtor work-list, players with net below the
negated tolerance, carried as positive magnitudes, sorted magnitude descending
with id tie-break (spec §4.2). -/
def debtors (eps : ℤ) (nets : List (ℕ × ℤ)) : List (ℕ × ℤ) :=
  List.insertionSort entryLE
    ((nets.filter (fun e => decide (e.2 < -eps))).map (fun e => (e.1, -e.2)))

/-- Modelled from the spec: the Debt Matcher, from net positions to the
ordered transaction list (spec §4.2). -/
def settle (eps : ℤ) (nets : List (ℕ × ℤ)) : List Txn :=
  settleLoop eps ((creditors eps nets).length + (debtors eps nets).length)
    (creditors eps nets) (debtors eps nets)

/-- Total amount directed into player `p` by the transactions. -/
def inflow (p : ℕ) (txns : List Txn) : ℤ :=
  ((txns.filter (fun t => decide (t.«to» = p))).map Txn.amount).sum

/-- Total amount paid by player `p` in the transactions. -/
def outflow (p : ℕ) (txns : List Txn) : ℤ :=
  ((txns.filter (fun t => decide (t.«from» = p))).map Txn.amount).sum

/-- Player `p`'s net position in an input mapping (the sum of the entries
keyed by `p`; a mapping holds at most one). -/
def netOf (p : ℕ) (nets : List (ℕ × ℤ)) : ℤ :=
  ((nets.filter (fun e => decide (e.1 = p))).map Prod.snd).sum

/-- The amount a work-list currently carries for player `p`. -/
def valOf (p : ℕ) (l : List (ℕ × ℤ)) : ℤ :=
  ((l.filter (fun e => decide (e.1 = p))).map Prod.snd).sum

/-- Scenario A of the spec (§8): nets `A = +30, B = −10, C = −20`. -/
def demoNets : List (ℕ × ℤ) := [(1, 30), (2, -10), (3, -20)]

end Matcher

/-! ## Theorems -/

/-- A left fold that only accumulates additions is the sum of the mapped list. -/
theorem foldl_add_sum {α : Type} (f : α → ℚ) :
    ∀ (l : List α) (a : ℚ), l.foldl (fun t x => t + f x) a = a + (l.map f).sum := by
  intro l
  induction l with
  | nil => intro a; simp
  | cons x t ih =>
    intro a
    simp only [List.foldl_cons, List.map_cons, List.sum_cons, ih]
    ring

/-- The dashboard's per-session lookup agrees with the specification-side
per-session amount. -/
theorem dashboard_lookup_eq_sessionAmount (playerId : ℕ) (s : Dashboard.Session) :
    (((s.balances.find? (fun b => b.player_id == playerId)).map
        Dashboard.Balance.amount).getD 0) = Dashboard.sessionAmount playerId s := by
  unfold Dashboard.sessionAmount
  cases s.balances.find? (fun b => b.player_id == playerId) <;> simp

/-- C2: for every player id and list of sessions, `getPlayerTotalWinnings`
equals the sum over all sessions of that player's balance amount in the
session, a session without a balance record for the player contributing 0. -/
theorem getPlayerTotalWinnings_eq_sum (playerId : ℕ) (sessions : List Dashboard.Session) :
    Dashboard.getPlayerTotalWinnings playerId sessions
      = (sessions.map (Dashboard.sessionAmount playerId)).sum := by
  unfold Dashboard.getPlayerTotalWinnings
  rw [foldl_add_sum (fun session =>
    (((session.balances.find? (fun b => b.player_id == playerId)).map
      Dashboard.Balance.amount).getD 0)) sessions 0]
  rw [zero_add]
  exact congrArg List.sum
    (List.map_congr_left (fun s _ => dashboard_lookup_eq_sessionAmount playerId s))

/-- C9: the edit-session form's derived cash-out values, minus the session
buy-in, give back exactly the stored balance amounts for the same players:
the initialization inverts the balance definition. -/
theorem initialCashOuts_roundTrip (s : SessionView.Session) :
    (SessionView.initialCashOuts s).map (fun pc => (pc.1, pc.2 - s.buy_in))
      = s.balances.map (fun b => (b.player.id, b.amount)) := by
  unfold SessionView.initialCashOuts
  rw [List.map_map]
  exact List.map_congr_left (fun b _ => by simp)

/-- C7: after `handleMarkAsSettled` for id `sid`, the list has the same length
and, position by position, the entry whose id is `sid` carries `settled = true`
with every other field unchanged, while entries with a different id are
entirely unchanged. -/
theorem handleMarkAsSettled_frame (l : List Settlements.Settlement) (sid : String) :
    (Settlements.handleMarkAsSettled l sid).length = l.length ∧
    ∀ (i : ℕ) (s s2 : Settlements.Settlement), l[i]? = some s →
      (Settlements.handleMarkAsSettled l sid)[i]? = some s2 →
      s2.text = s.text ∧ s2.«from» = s.«from» ∧ s2.«to» = s.«to» ∧
      s2.amount = s.amount ∧ s2.id = s.id ∧
      (s.id = sid → s2.settled = true) ∧ (s.id ≠ sid → s2.settled = s.settled) := by
  constructor
  · simp [Settlements.handleMarkAsSettled]
  · intro i s s2 hs hs2
    rw [Settlements.handleMarkAsSettled, List.getElem?_map, hs] at hs2
    simp only [Option.map] at hs2
    injection hs2 with hs2
    subst hs2
    by_cases h : s.id = sid <;> simp [h]

/-- C7 witness: evaluating the frame property on a concrete two-element list. -/
theorem handleMarkAsSettled_frame_witness :
    (Settlements.handleMarkAsSettled Settlements.demoSettlements "s1").length
        = Settlements.demoSettlements.length ∧
    Settlements.demoS1Settled.settled = true ∧
    Settlements.demoS1Settled.amount = Settlements.demoS1.amount :=
  ⟨(handleMarkAsSettled_frame Settlements.demoSettlements "s1").1,
   ((handleMarkAsSettled_frame Settlements.demoSettlements "s1").2 0
      Settlements.demoS1 Settlements.demoS1Settled rfl (by decide)).2.2.2.2.2.1 rfl,
   ((handleMarkAsSettled_frame Settlements.demoSettlements "s1").2 0
      Settlements.demoS1 Settlements.demoS1Settled rfl (by decide)).2.2.2.1⟩

/-- Marking an id on a list in which every entry with that id is already
settled changes nothing. -/
theorem handleMarkAsSettled_noop (sid : String) :
    ∀ l : List Settlements.Settlement,
      (∀ s ∈ l, s.id = sid → s.settled = true) →
      Settlements.handleMarkAsSettled l sid = l := by
  intro l
  induction l with
  | nil => intro _; rfl
  | cons a t ih =>
    intro h
    have ht : ∀ s ∈ t, s.id = sid → s.settled = true := fun s hs => h s (List.mem_cons_of_mem a hs)
    simp only [Settlements.handleMarkAsSettled, List.map_cons]
    rw [show (t.map fun settlement =>
      if settlement.id = sid then { settlement with settled := true } else settlement) =
        Settlements.handleMarkAsSettled t sid from rfl, ih ht]
    by_cases ha : a.id = sid
    · have := h a (List.mem_cons_self a t) ha
      cases a
      simp_all
    · simp [ha]

/-- C8: `handleMarkAsSettled` is idempotent, and marking an id whose entries
are all already settled is a no-op (the update is total, so it never fails). -/
theorem handleMarkAsSettled_idem (l : List Settlements.Settlement) (sid : String) :
    Settlements.handleMarkAsSettled (Settlements.handleMarkAsSettled l sid) sid
        = Settlements.handleMarkAsSettled l sid ∧
    ((∀ s ∈ l, s.id = sid → s.settled = true) →
      Settlements.handleMarkAsSettled l sid = l) := by
  refine ⟨?_, handleMarkAsSettled_noop sid l⟩
  apply handleMarkAsSettled_noop
  intro s hs hsid
  unfold Settlements.handleMarkAsSettled at hs
  rcases List.mem_map.mp hs with ⟨a, _, ha⟩
  by_cases h : a.id = sid
  · rw [if_pos h] at ha
    rw [← ha]
  · rw [if_neg h] at ha
    rw [← ha] at hsid
    exact absurd hsid h

/-- C8 witness: idempotence and the no-op case evaluated on a list whose
matching entry is already settled. -/
theorem handleMarkAsSettled_idem_witness :
    Settlements.handleMarkAsSettled
        (Settlements.handleMarkAsSettled Settlements.demoAllSettled "s1") "s1"
      = Settlements.handleMarkAsSettled Settlements.demoAllSettled "s1" ∧
    Settlements.handleMarkAsSettled Settlements.demoAllSettled "s1"
      = Settlements.demoAllSettled :=
  ⟨(handleMarkAsSettled_idem Settlements.demoAllSettled "s1").1,
   (handleMarkAsSettled_idem Settlements.demoAllSettled "s1").2 (by decide)⟩

/-- C5 (amended): the Save Session button is enabled exactly when the form is
not submitting and the total of `chips - buyIn` over participating players is
within 1 whole currency unit of zero; beyond that the session cannot be
submitted. -/
theorem saveDisabled_eq_false_iff (submitting : Bool) (st : AddSession.FormState) :
    AddSession.saveDisabled submitting st = false ↔
      submitting = false ∧ |AddSession.calculateTotalProfitLoss st| ≤ 1 := by
  simp [AddSession.saveDisabled, not_lt]

/-- C5 counterexample: a form whose balances are off by half a currency unit —
far beyond the component's own `0.01` zero-sum indicator tolerance — still has
the Save Session button enabled. -/
theorem saveEnabled_beyond_eps :
    AddSession.saveDisabled false AddSession.cxFormState = false ∧
    AddSession.balancesCorrectlyDistributed AddSession.cxFormState = false ∧
    |AddSession.calculateTotalProfitLoss AddSession.cxFormState| = 1 / 2 := by
  refine ⟨?_, ?_, ?_⟩
  · norm_num [AddSession.saveDisabled, AddSession.calculateTotalProfitLoss,
      AddSession.cxFormState, abs_of_nonneg]
  · norm_num [AddSession.balancesCorrectlyDistributed, AddSession.calculateTotalProfitLoss,
      AddSession.cxFormState, abs_of_nonneg]
  · norm_num [AddSession.calculateTotalProfitLoss, AddSession.cxFormState, abs_of_nonneg]

/-- Inserting into a list commutes with filtering on a key the order compares,
provided key-equal elements are always related: the inserted element lands in
front of the key-equal ones it was inserted before. -/
theorem orderedInsert_filter_key {α : Type} (key : α → ℚ) (r : α → α → Prop)
    [DecidableRel r] (htie : ∀ a b, key a = key b → r a b) (q : ℚ) (x : α) :
    ∀ t : List α,
      (List.orderedInsert r x t).filter (fun y => decide (key y = q))
        = if key x = q then x :: t.filter (fun y => decide (key y = q))
          else t.filter (fun y => decide (key y = q)) := by
  intro t
  induction t with
  | nil =>
    by_cases hx : key x = q <;> simp [List.orderedInsert, List.filter_cons, hx]
  | cons y ys ih =>
    by_cases hr : r x y
    · by_cases hx : key x = q <;>
        simp [List.orderedInsert, if_pos hr, List.filter_cons, hx]
    · have hxy : key x ≠ key y := fun he => hr (htie x y he)
      by_cases hx : key x = q
      · have hy : ¬ key y = q := fun he => hxy (hx.trans he.symm)
        simp [List.orderedInsert, if_neg hr, List.filter_cons, hx, hy, ih]
      · by_cases hy : key y = q <;>
          simp [List.orderedInsert, if_neg hr, List.filter_cons, hx, hy, ih]

/-- Insertion sort on a key-comparing order is stable: filtering the sorted
list down to any single key value returns those elements in input order. -/
theorem insertionSort_filter_key {α : Type} (key : α → ℚ) (r : α → α → Prop)
    [DecidableRel r] (htie : ∀ a b, key a = key b → r a b) (q : ℚ) :
    ∀ l : List α,
      (List.insertionSort r l).filter (fun y => decide (key y = q))
        = l.filter (fun y => decide (key y = q)) := by
  intro l
  induction l with
  | nil => rfl
  | cons x t ih =>
    simp only [List.insertionSort]
    rw [orderedInsert_filter_key key r htie q x (List.insertionSort r t)]
    by_cases hx : key x = q <;> simp [List.filter_cons, hx, ih]

/-- C6 (amended): `getWinners` returns exactly the balances with strictly
positive amount and `getLosers` exactly those with strictly negative amount
(a zero threshold, with no tolerance); each list is sorted by magnitude
descending, and balances of equal amount keep their input order (the JS sort
is stable), which makes the result deterministic in the input order. -/
theorem getWinners_getLosers_spec (s : SessionView.Session) :
    (SessionView.getWinners (some s)).Perm
        (s.balances.filter (fun b => decide (0 < b.amount))) ∧
    List.Pairwise SessionView.winnersLE (SessionView.getWinners (some s)) ∧
    (∀ q : ℚ, (SessionView.getWinners (some s)).filter (fun b => decide (b.amount = q))
        = (s.balances.filter (fun b => decide (0 < b.amount))).filter
            (fun b => decide (b.amount = q))) ∧
    (SessionView.getLosers (some s)).Perm
        (s.balances.filter (fun b => decide (b.amount < 0))) ∧
    List.Pairwise SessionView.losersLE (SessionView.getLosers (some s)) ∧
    (∀ q : ℚ, (SessionView.getLosers (some s)).filter (fun b => decide (b.amount = q))
        = (s.balances.filter (fun b => decide (b.amount < 0))).filter
            (fun b => decide (b.amount = q))) := by
  refine ⟨?_, ?_, ?_, ?_, ?_, ?_⟩
  · exact List.perm_insertionSort _ _
  · exact List.sorted_insertionSort SessionView.winnersLE _
  · intro q
    exact insertionSort_filter_key SessionView.Balance.amount SessionView.winnersLE
      (fun a b h => le_of_eq h.symm) q _
  · exact List.perm_insertionSort _ _
  · exact List.sorted_insertionSort SessionView.losersLE _
  · intro q
    exact insertionSort_filter_key SessionView.Balance.amount SessionView.losersLE
      (fun a b h => le_of_eq h) q _

/-- C6 counterexample: on two equal winning amounts listed with the larger
player id first, `getWinners` keeps the input order, not the player-id
ascending order the tie-break sentence demands. -/
theorem getWinners_no_id_tiebreak :
    SessionView.getWinners (some SessionView.cxSession)
        = [SessionView.cxBalanceHigh, SessionView.cxBalanceLow] ∧
    SessionView.getWinnersClaim 0 SessionView.cxSession
        = [SessionView.cxBalanceLow, SessionView.cxBalanceHigh] ∧
    SessionView.getWinners (some SessionView.cxSession)
        ≠ SessionView.getWinnersClaim 0 SessionView.cxSession ∧
    SessionView.cxBalanceHigh.amount = SessionView.cxBalanceLow.amount ∧
    SessionView.cxBalanceLow.player.id < SessionView.cxBalanceHigh.player.id := by
  refine ⟨by decide, by decide, by decide, by decide, by decide⟩

/-- C10: the win rate is 0 for a player with no participated session (the
division is guarded), and otherwise is the rounded percentage of participated
sessions won, always between 0 and 100. -/
theorem calculateWinRate_spec (playerId : ℕ) (sessions : List Dashboard.Session) :
    (sessions.filter (fun s => Dashboard.participates playerId s) = [] →
      Dashboard.calculateWinRate playerId sessions = 0) ∧
    (sessions.filter (fun s => Dashboard.participates playerId s) ≠ [] →
      Dashboard.calculateWinRate playerId sessions
        = round ((((sessions.filter (fun s => Dashboard.participates playerId s)).filter
              (fun s => Dashboard.wonSession playerId s)).length : ℚ) * 100 /
            ((sessions.filter (fun s => Dashboard.participates playerId s)).length : ℚ))) ∧
    0 ≤ Dashboard.calculateWinRate playerId sessions ∧
    Dashboard.calculateWinRate playerId sessions ≤ 100 := by
  refine ⟨?_, ?_, ?_⟩
  · intro h
    simp [Dashboard.calculateWinRate, h]
  · intro h
    have hlen : (sessions.filter (fun s => Dashboard.participates playerId s)).length ≠ 0 := by
      simpa [List.length_eq_zero] using h
    simp only [Dashboard.calculateWinRate, if_neg hlen]
    congr 1
    ring
  · by_cases h : (sessions.filter (fun s => Dashboard.participates playerId s)).length = 0
    · simp [Dashboard.calculateWinRate, h]
    · simp only [Dashboard.calculateWinRate, if_neg h]
      have hk : ((sessions.filter (fun s => Dashboard.participates playerId s)).filter
          (fun s => Dashboard.wonSession playerId s)).length
            ≤ (sessions.filter (fun s => Dashboard.participates playerId s)).length :=
        List.length_filter_le _ _
      set n := (sessions.filter (fun s => Dashboard.participates playerId s)).length with hn
      set k := ((sessions.filter (fun s => Dashboard.participates playerId s)).filter
          (fun s => Dashboard.wonSession playerId s)).length with hkdef
      have hnpos : (0 : ℚ) < (n : ℚ) := by
        exact_mod_cast Nat.pos_of_ne_zero h
      have hq0 : (0 : ℚ) ≤ (k : ℚ) / (n : ℚ) * 100 := by positivity
      have hq1 : (k : ℚ) / (n : ℚ) * 100 ≤ 100 := by
        have hdiv : (k : ℚ) / (n : ℚ) ≤ 1 := (div_le_one hnpos).mpr (by exact_mod_cast hk)
        nlinarith
      constructor
      · rw [round_eq]
        exact Int.floor_nonneg.mpr (by linarith)
      · rw [round_eq]
        have hmono : ⌊(k : ℚ) / (n : ℚ) * 100 + 1 / 2⌋ ≤ ⌊(201 : ℚ) / 2⌋ :=
          Int.floor_mono (by linarith)
        have hval : ⌊(201 : ℚ) / 2⌋ = 100 := by norm_num
        omega

/-- C10 witness: evaluating the win rate on two concrete sessions, one of them
won. -/
theorem calculateWinRate_spec_witness :
    Dashboard.calculateWinRate 1 Dashboard.demoSessions
      = round ((((Dashboard.demoSessions.filter (fun s => Dashboard.participates 1 s)).filter
            (fun s => Dashboard.wonSession 1 s)).length : ℚ) * 100 /
          ((Dashboard.demoSessions.filter (fun s => Dashboard.participates 1 s)).length : ℚ)) ∧
    0 ≤ Dashboard.calculateWinRate 1 Dashboard.demoSessions ∧
    Dashboard.calculateWinRate 1 Dashboard.demoSessions ≤ 100 :=
  ⟨(calculateWinRate_spec 1 Dashboard.demoSessions).2.1 (by decide),
   (calculateWinRate_spec 1 Dashboard.demoSessions).2.2.1,
   (calculateWinRate_spec 1 Dashboard.demoSessions).2.2.2⟩

/-- Unfolding `inflow` over the head transaction. -/
theorem Matcher.inflow_cons (p : ℕ) (t : Matcher.Txn) (txns : List Matcher.Txn) :
    Matcher.inflow p (t :: txns)
      = (if t.«to» = p then t.amount else 0) + Matcher.inflow p txns := by
  by_cases h : t.«to» = p <;> simp [Matcher.inflow, List.filter_cons, h]

/-- Unfolding `outflow` over the head transaction. -/
theorem Matcher.outflow_cons (p : ℕ) (t : Matcher.Txn) (txns : List Matcher.Txn) :
    Matcher.outflow p (t :: txns)
      = (if t.«from» = p then t.amount else 0) + Matcher.outflow p txns := by
  by_cases h : t.«from» = p <;> simp [Matcher.outflow, List.filter_cons, h]

/-- Unfolding `valOf` over the head work-list entry. -/
theorem Matcher.valOf_cons (p : ℕ) (e : ℕ × ℤ) (l : List (ℕ × ℤ)) :
    Matcher.valOf p (e :: l) = (if e.1 = p then e.2 else 0) + Matcher.valOf p l := by
  by_cases h : e.1 = p <;> simp [Matcher.valOf, List.filter_cons, h]

/-- A work-list of strictly positive remainders has a nonnegative total. -/
theorem Matcher.sum_snd_nonneg {l : List (ℕ × ℤ)} (h : ∀ e ∈ l, 0 < e.2) :
    0 ≤ (l.map Prod.snd).sum :=
  List.sum_nonneg (by
    rintro x hx
    rcases List.mem_map.mp hx with ⟨e, he, rfl⟩
    exact le_of_lt (h e he))

/-- A work-list of strictly positive remainders with total zero is empty. -/
theorem Matcher.eq_nil_of_pos_sum_zero {l : List (ℕ × ℤ)}
    (h : ∀ e ∈ l, 0 < e.2) (hsum : (l.map Prod.snd).sum = 0) : l = [] := by
  cases l with
  | nil => rfl
  | cons e t =>
    exfalso
    have he : 0 < e.2 := h e (List.mem_cons_self e t)
    have ht : 0 ≤ (t.map Prod.snd).sum :=
      Matcher.sum_snd_nonneg (fun x hx => h x (List.mem_cons_of_mem e hx))
    simp only [List.map_cons, List.sum_cons] at hsum
    linarith

/-- Every round of the greedy loop retires at least one work-list entry, so
the loop emits fewer transactions than it has entries. -/
theorem Matcher.settleLoop_length_le (eps : ℤ) (heps : 0 ≤ eps) :
    ∀ (fuel : ℕ) (cs ds : List (ℕ × ℤ)),
      (Matcher.settleLoop eps fuel cs ds).length ≤ cs.length + ds.length - 1 := by
  intro fuel
  induction fuel with
  | zero => intro cs ds; simp [Matcher.settleLoop]
  | succ n ih =>
    intro cs ds
    match cs, ds with
    | [], ds => simp [Matcher.settleLoop]
    | c :: cs0, [] => simp [Matcher.settleLoop]
    | c :: cs0, d :: ds0 =>
      have hdrop : c.2 - min c.2 d.2 ≤ eps ∨ d.2 - min c.2 d.2 ≤ eps := by
        rcases min_choice c.2 d.2 with h | h
        · left; rw [h]; omega
        · right; rw [h]; omega
      simp only [Matcher.settleLoop, List.length_cons]
      by_cases h1 : c.2 - min c.2 d.2 ≤ eps
      · by_cases h2 : d.2 - min c.2 d.2 ≤ eps
        · rw [if_pos h1, if_pos h2]
          have := ih cs0 ds0
          omega
        · rw [if_pos h1, if_neg h2]
          have := ih cs0 ((d.1, d.2 - min c.2 d.2) :: ds0)
          simp only [List.length_cons] at this
          omega
      · by_cases h2 : d.2 - min c.2 d.2 ≤ eps
        · rw [if_neg h1, if_pos h2]
          have := ih ((c.1, c.2 - min c.2 d.2) :: cs0) ds0
          simp only [List.length_cons] at this
          omega
        · rcases hdrop with h | h
          · exact absurd h h1
          · exact absurd h h2

/-- Every emitted transaction is directed into a creditor-list player and paid
by a debtor-list player. -/
theorem Matcher.settleLoop_toFrom_mem (eps : ℤ) :
    ∀ (fuel : ℕ) (cs ds : List (ℕ × ℤ)) (t : Matcher.Txn),
      t ∈ Matcher.settleLoop eps fuel cs ds →
      t.«to» ∈ cs.map Prod.fst ∧ t.«from» ∈ ds.map Prod.fst := by
  intro fuel
  induction fuel with
  | zero => intro cs ds t ht; simp [Matcher.settleLoop] at ht
  | succ n ih =>
    intro cs ds t ht
    match cs, ds with
    | [], ds => simp [Matcher.settleLoop] at ht
    | c :: cs0, [] => simp [Matcher.settleLoop] at ht
    | c :: cs0, d :: ds0 =>
      simp only [Matcher.settleLoop, List.mem_cons] at ht
      rcases ht with rfl | ht
      · constructor <;> simp
      · have hrec := ih _ _ t ht
        constructor
        · by_cases h : c.2 - min c.2 d.2 ≤ eps
          · rw [if_pos h] at hrec
            exact List.mem_cons_of_mem _ hrec.1
          · rw [if_neg h] at hrec
            simpa using hrec.1
        · by_cases h : d.2 - min c.2 d.2 ≤ eps
          · rw [if_pos h] at hrec
            exact List.mem_cons_of_mem _ hrec.2
          · rw [if_neg h] at hrec
            simpa using hrec.2

/-- The creditor and debtor filters are disjoint subfilters of the
nonzero-net filter. -/
theorem Matcher.filter_three_counts (eps : ℤ) (heps : 0 ≤ eps) :
    ∀ l : List (ℕ × ℤ),
      (l.filter (fun e => decide (eps < e.2))).length
          + (l.filter (fun e => decide (e.2 < -eps))).length
        ≤ (l.filter (fun e => decide (e.2 ≠ 0))).length := by
  intro l
  induction l with
  | nil => simp
  | cons e t ih =>
    obtain ⟨a, v⟩ := e
    simp only [List.filter_cons]
    by_cases h1 : eps < v
    · by_cases h2 : v < -eps
      · exfalso; omega
      · have h3 : v ≠ 0 := by omega
        simp [h1, h2, h3] at ih ⊢
        omega
    · by_cases h2 : v < -eps
      · have h3 : v ≠ 0 := by omega
        simp [h1, h2, h3] at ih ⊢
        omega
      · by_cases h3 : v = 0
        · subst h3
          simp [h1, h2] at ih ⊢
          omega
        · simp [h1, h2, h3] at ih ⊢
          omega

/-- C4: the Debt Matcher emits at most `n − 1` transactions for `n` players
with nonzero net position, and no transaction at all when every net position
is within the tolerance of zero. -/
theorem settle_txn_bound (eps : ℤ) (heps : 0 ≤ eps) (nets : List (ℕ × ℤ))
    (hnodup : (nets.map Prod.fst).Nodup) :
    (Matcher.settle eps nets).length
        ≤ (nets.filter (fun e => decide (e.2 ≠ 0))).length - 1 ∧
    ((∀ e ∈ nets, |e.2| ≤ eps) → Matcher.settle eps nets = []) := by
  constructor
  · have h1 := Matcher.settleLoop_length_le eps heps
      ((Matcher.creditors eps nets).length + (Matcher.debtors eps nets).length)
      (Matcher.creditors eps nets) (Matcher.debtors eps nets)
    have hc : (Matcher.creditors eps nets).length
        = (nets.filter (fun e => decide (eps < e.2))).length :=
      (List.perm_insertionSort _ _).length_eq
    have hd : (Matcher.debtors eps nets).length
        = (nets.filter (fun e => decide (e.2 < -eps))).length := by
      have := (List.perm_insertionSort Matcher.entryLE
        ((nets.filter (fun e => decide (e.2 < -eps))).map (fun e => (e.1, -e.2)))).length_eq
      simpa [Matcher.debtors] using this
    have h2 := Matcher.filter_three_counts eps heps nets
    unfold Matcher.settle
    omega
  · intro hsmall
    have hc : nets.filter (fun e => decide (eps < e.2)) = [] := by
      rw [List.filter_eq_nil_iff]
      intro e he
      have h1 := hsmall e he
      have h2 := le_abs_self e.2
      simp only [decide_eq_true_eq]
      omega
    have hd : nets.filter (fun e => decide (e.2 < -eps)) = [] := by
      rw [List.filter_eq_nil_iff]
      intro e he
      have h1 := hsmall e he
      have h2 := neg_abs_le e.2
      simp only [decide_eq_true_eq]
      omega
    unfold Matcher.settle Matcher.creditors Matcher.debtors
    rw [hc, hd]
    rfl

/-- C4 witness: the bound evaluated on the spec's Scenario A nets. -/
theorem settle_txn_bound_witness :
    (Matcher.settle 0 Matcher.demoNets).length
        ≤ (Matcher.demoNets.filter (fun e => decide (e.2 ≠ 0))).length - 1 ∧
    ((∀ e ∈ Matcher.demoNets, |e.2| ≤ 0) → Matcher.settle 0 Matcher.demoNets = []) :=
  settle_txn_bound 0 (by decide) Matcher.demoNets (by decide)

/-- A player's net position in a mapping is its `valOf` as a work-list. -/
theorem Matcher.netOf_eq_valOf (p : ℕ) (l : List (ℕ × ℤ)) :
    Matcher.netOf p l = Matcher.valOf p l := rfl

/-- In a list with distinct keys, two entries with the same key coincide. -/
theorem Matcher.eq_of_mem_nodup_fst :
    ∀ {l : List (ℕ × ℤ)}, (l.map Prod.fst).Nodup →
      ∀ {a b : ℕ × ℤ}, a ∈ l → b ∈ l → a.1 = b.1 → a = b := by
  intro l
  induction l with
  | nil => intro _ a b ha; intro hb; simp at ha
  | cons e t ih =>
    intro hnodup a b ha hb hfst
    simp only [List.map_cons, List.nodup_cons] at hnodup
    rcases List.mem_cons.mp ha with rfl | ha2 <;> rcases List.mem_cons.mp hb with rfl | hb2
    · rfl
    · exact absurd (hfst ▸ List.mem_map.mpr ⟨b, hb2, rfl⟩) hnodup.1
    · exact absurd (hfst ▸ List.mem_map.mpr ⟨a, ha2, rfl⟩) hnodup.1
    · exact ih hnodup.2 ha2 hb2 hfst

/-- `valOf` vanishes for a player absent from the work-list. -/
theorem Matcher.valOf_eq_zero_of_not_mem :
    ∀ {l : List (ℕ × ℤ)} {p : ℕ}, p ∉ l.map Prod.fst → Matcher.valOf p l = 0 := by
  intro l
  induction l with
  | nil => intro p _; rfl
  | cons e t ih =>
    intro p h
    simp only [List.map_cons, List.mem_cons] at h
    push_neg at h
    rw [Matcher.valOf_cons, if_neg (fun he => h.1 he.symm), ih h.2, add_zero]

/-- With distinct keys, `valOf` at a member's key is that member's amount. -/
theorem Matcher.valOf_eq_of_mem :
    ∀ {l : List (ℕ × ℤ)} {e : ℕ × ℤ},
      (l.map Prod.fst).Nodup → e ∈ l → Matcher.valOf e.1 l = e.2 := by
  intro l
  induction l with
  | nil => intro e _ he; simp at he
  | cons f t ih =>
    intro e hnodup hmem
    simp only [List.map_cons, List.nodup_cons] at hnodup
    rcases List.mem_cons.mp hmem with rfl | hmem2
    · rw [Matcher.valOf_cons, if_pos rfl,
        Matcher.valOf_eq_zero_of_not_mem hnodup.1, add_zero]
    · have hne : f.1 ≠ e.1 := by
        intro h
        exact hnodup.1 (h ▸ List.mem_map.mpr ⟨e, hmem2, rfl⟩)
      rw [Matcher.valOf_cons, if_neg hne, ih hnodup.2 hmem2, zero_add]

/-- `valOf` only depends on the work-list up to permutation. -/
theorem Matcher.valOf_perm {l1 l2 : List (ℕ × ℤ)} (h : l1.Perm l2) (p : ℕ) :
    Matcher.valOf p l1 = Matcher.valOf p l2 :=
  ((h.filter _).map _).sum_eq

/-- Permuting a work-list leaves its total unchanged. -/
theorem Matcher.sum_snd_perm {l1 l2 : List (ℕ × ℤ)} (h : l1.Perm l2) :
    (l1.map Prod.snd).sum = (l2.map Prod.snd).sum :=
  (h.map _).sum_eq

/-- Negating every amount negates `valOf`. -/
theorem Matcher.valOf_map_neg (p : ℕ) :
    ∀ l : List (ℕ × ℤ),
      Matcher.valOf p (l.map (fun e => (e.1, -e.2))) = - Matcher.valOf p l := by
  intro l
  induction l with
  | nil => simp [Matcher.valOf]
  | cons e t ih =>
    simp only [List.map_cons, Matcher.valOf_cons, ih]
    by_cases h : e.1 = p <;> simp [h] <;> ring

/-- `valOf` splits into the strictly positive and strictly negative entries
(zero entries contribute nothing). -/
theorem Matcher.valOf_split (p : ℕ) :
    ∀ l : List (ℕ × ℤ),
      Matcher.valOf p l
        = Matcher.valOf p (l.filter (fun e => decide (0 < e.2)))
          + Matcher.valOf p (l.filter (fun e => decide (e.2 < 0))) := by
  intro l
  induction l with
  | nil => simp [Matcher.valOf]
  | cons e t ih =>
    obtain ⟨a, v⟩ := e
    rcases lt_trichotomy v 0 with h | h | h
    · have h2 : ¬ (0 < v) := by omega
      by_cases hp : a = p <;>
        simp [List.filter_cons, h, h2, hp, Matcher.valOf_cons, ih] <;> ring
    · subst h
      by_cases hp : a = p <;>
        simp [List.filter_cons, hp, Matcher.valOf_cons, ih]
    · have h2 : ¬ (v < 0) := by omega
      by_cases hp : a = p <;>
        simp [List.filter_cons, h, h2, hp, Matcher.valOf_cons, ih] <;> ring

/-- The total of a mapping splits into its positive and negative parts. -/
theorem Matcher.sum_split :
    ∀ l : List (ℕ × ℤ),
      (l.map Prod.snd).sum
        = ((l.filter (fun e => decide (0 < e.2))).map Prod.snd).sum
          + ((l.filter (fun e => decide (e.2 < 0))).map Prod.snd).sum := by
  intro l
  induction l with
  | nil => simp
  | cons e t ih =>
    obtain ⟨a, v⟩ := e
    rcases lt_trichotomy v 0 with h | h | h
    · have h2 : ¬ (0 < v) := by omega
      simp [List.filter_cons, h, h2, ih]
      ring
    · subst h
      simp [List.filter_cons, ih]
    · have h2 : ¬ (v < 0) := by omega
      simp [List.filter_cons, h, h2, ih]
      ring

/-- No transactions paid by a player means zero outflow. -/
theorem Matcher.outflow_eq_zero {p : ℕ} {txns : List Matcher.Txn}
    (h : ∀ t ∈ txns, t.«from» ≠ p) : Matcher.outflow p txns = 0 := by
  unfold Matcher.outflow
  rw [List.filter_eq_nil_iff.mpr (by simpa using h)]
  rfl

/-- No transactions directed into a player means zero inflow. -/
theorem Matcher.inflow_eq_zero {p : ℕ} {txns : List Matcher.Txn}
    (h : ∀ t ∈ txns, t.«to» ≠ p) : Matcher.inflow p txns = 0 := by
  unfold Matcher.inflow
  rw [List.filter_eq_nil_iff.mpr (by simpa using h)]
  rfl

/-- The conservation invariant of the greedy loop at tolerance 0: with
positive remainders, distinct players and balanced totals, the flow the
emitted transactions assign to each player is exactly what the work-lists
carry for that player. -/
theorem Matcher.settleLoop_flow :
    ∀ (fuel : ℕ) (cs ds : List (ℕ × ℤ)),
      cs.length + ds.length ≤ fuel →
      (∀ e ∈ cs, 0 < e.2) → (∀ e ∈ ds, 0 < e.2) →
      ((cs ++ ds).map Prod.fst).Nodup →
      (cs.map Prod.snd).sum = (ds.map Prod.snd).sum →
      ∀ p : ℕ,
        Matcher.inflow p (Matcher.settleLoop 0 fuel cs ds)
            - Matcher.outflow p (Matcher.settleLoop 0 fuel cs ds)
          = Matcher.valOf p cs - Matcher.valOf p ds := by
  intro fuel
  induction fuel with
  | zero =>
    intro cs ds hfuel hcpos hdpos hnodup hbal p
    have hcs : cs = [] := List.eq_nil_of_length_eq_zero (by omega)
    have hds : ds = [] := List.eq_nil_of_length_eq_zero (by omega)
    subst hcs; subst hds
    simp [Matcher.settleLoop, Matcher.inflow, Matcher.outflow, Matcher.valOf]
  | succ n ih =>
    intro cs ds hfuel hcpos hdpos hnodup hbal p
    cases cs with
    | nil =>
      have hds : ds = [] := Matcher.eq_nil_of_pos_sum_zero hdpos (by simpa using hbal.symm)
      subst hds
      simp [Matcher.settleLoop, Matcher.inflow, Matcher.outflow, Matcher.valOf]
    | cons c cs0 =>
      cases ds with
      | nil =>
        have hnil : c :: cs0 = [] :=
          Matcher.eq_nil_of_pos_sum_zero hcpos (by simpa using hbal)
        exact absurd hnil (List.cons_ne_nil c cs0)
      | cons d ds0 =>
        have hc2 : 0 < c.2 := hcpos c (List.mem_cons_self c cs0)
        have hd2 : 0 < d.2 := hdpos d (List.mem_cons_self d ds0)
        have hmc : min c.2 d.2 ≤ c.2 := min_le_left _ _
        have hmd : min c.2 d.2 ≤ d.2 := min_le_right _ _
        have hm0 : 0 < min c.2 d.2 := lt_min hc2 hd2
        have hcd : c.1 ≠ d.1 := by
          have h1 : c.1 ∉ ((cs0 ++ d :: ds0).map Prod.fst) := by
            have := hnodup
            simp only [List.cons_append, List.map_cons, List.nodup_cons] at this
            exact this.1
          intro he
          exact h1 (by
            rw [he]
            exact List.mem_map.mpr ⟨d, by simp, rfl⟩)
        simp only [Matcher.settleLoop]
        set CS : List (ℕ × ℤ) :=
          if c.2 - min c.2 d.2 ≤ 0 then cs0 else (c.1, c.2 - min c.2 d.2) :: cs0 with hCS
        set DS : List (ℕ × ℤ) :=
          if d.2 - min c.2 d.2 ≤ 0 then ds0 else (d.1, d.2 - min c.2 d.2) :: ds0 with hDS
        have hdrop : c.2 - min c.2 d.2 ≤ 0 ∨ d.2 - min c.2 d.2 ≤ 0 := by
          rcases min_choice c.2 d.2 with h | h
          · left; rw [h]; omega
          · right; rw [h]; omega
        have hfuel2 : CS.length + DS.length ≤ n := by
          have hCSlen : CS.length ≤ cs0.length + 1 ∧
              (c.2 - min c.2 d.2 ≤ 0 → CS.length = cs0.length) := by
            by_cases h : c.2 - min c.2 d.2 ≤ 0 <;> simp [hCS, h]
          have hDSlen : DS.length ≤ ds0.length + 1 ∧
              (d.2 - min c.2 d.2 ≤ 0 → DS.length = ds0.length) := by
            by_cases h : d.2 - min c.2 d.2 ≤ 0 <;> simp [hDS, h]
          simp only [List.length_cons] at hfuel
          rcases hdrop with h | h
          · have := hCSlen.2 h
            have := hDSlen.1
            omega
          · have := hDSlen.2 h
            have := hCSlen.1
            omega
        have hcpos2 : ∀ e ∈ CS, 0 < e.2 := by
          intro e he
          by_cases h : c.2 - min c.2 d.2 ≤ 0
          · rw [hCS, if_pos h] at he
            exact hcpos e (List.mem_cons_of_mem c he)
          · rw [hCS, if_neg h] at he
            rcases List.mem_cons.mp he with rfl | he2
            · show 0 < c.2 - min c.2 d.2
              omega
            · exact hcpos e (List.mem_cons_of_mem c he2)
        have hdpos2 : ∀ e ∈ DS, 0 < e.2 := by
          intro e he
          by_cases h : d.2 - min c.2 d.2 ≤ 0
          · rw [hDS, if_pos h] at he
            exact hdpos e (List.mem_cons_of_mem d he)
          · rw [hDS, if_neg h] at he
            rcases List.mem_cons.mp he with rfl | he2
            · show 0 < d.2 - min c.2 d.2
              omega
            · exact hdpos e (List.mem_cons_of_mem d he2)
        have hsubC : (CS.map Prod.fst).Sublist ((c :: cs0).map Prod.fst) := by
          by_cases h : c.2 - min c.2 d.2 ≤ 0
          · rw [hCS, if_pos h]
            simp only [List.map_cons]
            exact List.sublist_cons_self c.1 (cs0.map Prod.fst)
          · rw [hCS, if_neg h]
            simp only [List.map_cons]
            exact List.Sublist.refl _
        have hsubD : (DS.map Prod.fst).Sublist ((d :: ds0).map Prod.fst) := by
          by_cases h : d.2 - min c.2 d.2 ≤ 0
          · rw [hDS, if_pos h]
            simp only [List.map_cons]
            exact List.sublist_cons_self d.1 (ds0.map Prod.fst)
          · rw [hDS, if_neg h]
            simp only [List.map_cons]
            exact List.Sublist.refl _
        have hnodup2 : ((CS ++ DS).map Prod.fst).Nodup := by
          apply hnodup.sublist
          rw [List.map_append, List.map_append]
          exact hsubC.append hsubD
        have hsumC : (CS.map Prod.snd).sum
            = (cs0.map Prod.snd).sum + c.2 - min c.2 d.2 := by
          by_cases h : c.2 - min c.2 d.2 ≤ 0
          · rw [hCS, if_pos h]
            omega
          · rw [hCS, if_neg h]
            simp only [List.map_cons, List.sum_cons]
            ring
        have hsumD : (DS.map Prod.snd).sum
            = (ds0.map Prod.snd).sum + d.2 - min c.2 d.2 := by
          by_cases h : d.2 - min c.2 d.2 ≤ 0
          · rw [hDS, if_pos h]
            omega
          · rw [hDS, if_neg h]
            simp only [List.map_cons, List.sum_cons]
            ring
        have hbal2 : (CS.map Prod.snd).sum = (DS.map Prod.snd).sum := by
          simp only [List.map_cons, List.sum_cons] at hbal
          omega
        have IH := ih CS DS hfuel2 hcpos2 hdpos2 hnodup2 hbal2 p
        have hvC : Matcher.valOf p CS
            = (if c.1 = p then c.2 - min c.2 d.2 else 0) + Matcher.valOf p cs0 := by
          by_cases h : c.2 - min c.2 d.2 ≤ 0
          · rw [hCS, if_pos h]
            have hcm : c.2 - min c.2 d.2 = 0 := by omega
            rw [hcm]
            simp
          · rw [hCS, if_neg h, Matcher.valOf_cons]
        have hvD : Matcher.valOf p DS
            = (if d.1 = p then d.2 - min c.2 d.2 else 0) + Matcher.valOf p ds0 := by
          by_cases h : d.2 - min c.2 d.2 ≤ 0
          · rw [hDS, if_pos h]
            have hdm : d.2 - min c.2 d.2 = 0 := by omega
            rw [hdm]
            simp
          · rw [hDS, if_neg h, Matcher.valOf_cons]
        rw [Matcher.inflow_cons, Matcher.outflow_cons,
          Matcher.valOf_cons p c cs0, Matcher.valOf_cons p d ds0]
        rw [hvC, hvD] at IH
        by_cases hcp : c.1 = p <;> by_cases hdp : d.1 = p
        · exact absurd (hcp.trans hdp.symm) hcd
        · simp only [hcp, hdp, if_true, if_false, ite_true, ite_false] at IH ⊢
          omega
        · simp only [hcp, hdp, if_true, if_false, ite_true, ite_false] at IH ⊢
          omega
        · simp only [hcp, hdp, if_true, if_false, ite_true, ite_false] at IH ⊢
          omega

/-- C1: on a balanced net-position mapping (distinct players, totals summing
to zero — the upstream zero-sum session invariant), the Debt Matcher's
transactions reproduce every net position exactly: each creditor receives
exactly its positive net and pays nothing, and each debtor pays exactly the
magnitude of its negative net and receives nothing. -/
theorem settle_conserves_net (nets : List (ℕ × ℤ))
    (hnodup : (nets.map Prod.fst).Nodup)
    (hzero : (nets.map Prod.snd).sum = 0) :
    ∀ p : ℕ,
      (0 < Matcher.netOf p nets →
        Matcher.inflow p (Matcher.settle 0 nets) = Matcher.netOf p nets ∧
        Matcher.outflow p (Matcher.settle 0 nets) = 0) ∧
      (Matcher.netOf p nets < 0 →
        Matcher.outflow p (Matcher.settle 0 nets) = - Matcher.netOf p nets ∧
        Matcher.inflow p (Matcher.settle 0 nets) = 0) := by
  intro p
  have hpermc : (Matcher.creditors 0 nets).Perm
      (nets.filter (fun e => decide ((0 : ℤ) < e.2))) :=
    List.perm_insertionSort _ _
  have hpermd : (Matcher.debtors 0 nets).Perm
      ((nets.filter (fun e => decide (e.2 < -(0 : ℤ)))).map (fun e => (e.1, -e.2))) :=
    List.perm_insertionSort _ _
  have hfilterneg : nets.filter (fun e => decide (e.2 < -(0 : ℤ)))
      = nets.filter (fun e => decide (e.2 < 0)) := by
    norm_num
  have hcpos : ∀ e ∈ Matcher.creditors 0 nets, 0 < e.2 := by
    intro e he
    have hmem := hpermc.mem_iff.mp he
    have := List.of_mem_filter hmem
    simpa using this
  have hdpos : ∀ e ∈ Matcher.debtors 0 nets, 0 < e.2 := by
    intro e he
    have hmem := hpermd.mem_iff.mp he
    rcases List.mem_map.mp hmem with ⟨x, hx, rfl⟩
    have := List.of_mem_filter hx
    simp at this ⊢
    omega
  have hmapneg : ∀ l : List (ℕ × ℤ),
      ((l.map (fun e => (e.1, -e.2))).map Prod.fst) = l.map Prod.fst := by
    intro l
    rw [List.map_map]
    rfl
  have hnodupc : ((Matcher.creditors 0 nets).map Prod.fst).Nodup := by
    have h1 : ((nets.filter (fun e => decide ((0 : ℤ) < e.2))).map Prod.fst).Sublist
        (nets.map Prod.fst) := (List.filter_sublist _).map _
    exact ((hpermc.map Prod.fst).symm).nodup (hnodup.sublist h1)
  have hnodupd : ((Matcher.debtors 0 nets).map Prod.fst).Nodup := by
    have h1 : ((nets.filter (fun e => decide (e.2 < -(0 : ℤ)))).map Prod.fst).Sublist
        (nets.map Prod.fst) := (List.filter_sublist _).map _
    have h2 := hpermd.map Prod.fst
    rw [hmapneg] at h2
    exact (h2.symm).nodup (hnodup.sublist h1)
  have hdisj : ∀ x, x ∈ (Matcher.creditors 0 nets).map Prod.fst →
      x ∈ (Matcher.debtors 0 nets).map Prod.fst → False := by
    intro x hxc hxd
    rw [(hpermc.map Prod.fst).mem_iff] at hxc
    have h2 := (hpermd.map Prod.fst).mem_iff.mp hxd
    rw [hmapneg] at h2
    rcases List.mem_map.mp hxc with ⟨e1, he1, he1x⟩
    rcases List.mem_map.mp h2 with ⟨e2, he2, he2x⟩
    have hp1 := List.of_mem_filter he1
    have hp2 := List.of_mem_filter he2
    simp only [decide_eq_true_eq] at hp1 hp2
    have heq : e1 = e2 := Matcher.eq_of_mem_nodup_fst hnodup
      (List.mem_of_mem_filter he1) (List.mem_of_mem_filter he2)
      (he1x.trans he2x.symm)
    rw [heq] at hp1
    omega
  have hnodupall : (((Matcher.creditors 0 nets) ++ (Matcher.debtors 0 nets)).map
      Prod.fst).Nodup := by
    rw [List.map_append, List.nodup_append]
    exact ⟨hnodupc, hnodupd, hdisj⟩
  have hnegsum : ∀ l : List (ℕ × ℤ),
      ((l.map (fun e => (e.1, -e.2))).map Prod.snd).sum = -((l.map Prod.snd).sum) := by
    intro l
    induction l with
    | nil => simp
    | cons e t ih =>
      simp only [List.map_cons, List.sum_cons, ih]
      ring
  have hsum : ((Matcher.creditors 0 nets).map Prod.snd).sum
      = ((Matcher.debtors 0 nets).map Prod.snd).sum := by
    have h1 := Matcher.sum_snd_perm hpermc
    have h2 := Matcher.sum_snd_perm hpermd
    rw [hfilterneg] at h2
    have h3 := hnegsum (nets.filter (fun e => decide (e.2 < 0)))
    have h4 := Matcher.sum_split nets
    omega
  have hflow := Matcher.settleLoop_flow
    ((Matcher.creditors 0 nets).length + (Matcher.debtors 0 nets).length)
    (Matcher.creditors 0 nets) (Matcher.debtors 0 nets)
    le_rfl hcpos hdpos hnodupall hsum p
  have hsettle : Matcher.settle 0 nets
      = Matcher.settleLoop 0
          ((Matcher.creditors 0 nets).length + (Matcher.debtors 0 nets).length)
          (Matcher.creditors 0 nets) (Matcher.debtors 0 nets) := rfl
  rw [← hsettle] at hflow
  have hvcs : Matcher.valOf p (Matcher.creditors 0 nets)
      = Matcher.valOf p (nets.filter (fun e => decide (0 < e.2))) := by
    have := Matcher.valOf_perm hpermc p
    simpa using this
  have hvds : Matcher.valOf p (Matcher.debtors 0 nets)
      = - Matcher.valOf p (nets.filter (fun e => decide (e.2 < 0))) := by
    rw [Matcher.valOf_perm hpermd p, hfilterneg, Matcher.valOf_map_neg]
  have hnet : Matcher.netOf p nets
      = Matcher.valOf p (nets.filter (fun e => decide (0 < e.2)))
        + Matcher.valOf p (nets.filter (fun e => decide (e.2 < 0))) := by
    rw [Matcher.netOf_eq_valOf]
    exact Matcher.valOf_split p nets
  have hconserve : Matcher.inflow p (Matcher.settle 0 nets)
      - Matcher.outflow p (Matcher.settle 0 nets) = Matcher.netOf p nets := by
    rw [hflow, hvcs, hvds, hnet]
    ring
  have hmemtx := fun t ht => Matcher.settleLoop_toFrom_mem 0
    ((Matcher.creditors 0 nets).length + (Matcher.debtors 0 nets).length)
    (Matcher.creditors 0 nets) (Matcher.debtors 0 nets) t (hsettle ▸ ht)
  constructor
  · intro hpos
    have hpd : p ∉ (Matcher.debtors 0 nets).map Prod.fst := by
      intro hmem
      have h2 := (hpermd.map Prod.fst).mem_iff.mp hmem
      rw [hmapneg, hfilterneg] at h2
      rcases List.mem_map.mp h2 with ⟨e, he, hex⟩
      have hneg := List.of_mem_filter he
      simp only [decide_eq_true_eq] at hneg
      have hnetv : Matcher.netOf e.1 nets = e.2 := by
        rw [Matcher.netOf_eq_valOf]
        exact Matcher.valOf_eq_of_mem hnodup (List.mem_of_mem_filter he)
      rw [hex] at hnetv
      omega
    have hout : Matcher.outflow p (Matcher.settle 0 nets) = 0 := by
      apply Matcher.outflow_eq_zero
      intro t ht hfp
      exact hpd (hfp ▸ (hmemtx t ht).2)
    exact ⟨by omega, hout⟩
  · intro hneg
    have hpc : p ∉ (Matcher.creditors 0 nets).map Prod.fst := by
      intro hmem
      have h2 := (hpermc.map Prod.fst).mem_iff.mp hmem
      rcases List.mem_map.mp h2 with ⟨e, he, hex⟩
      have hposmem := List.of_mem_filter he
      simp only [decide_eq_true_eq] at hposmem
      have hnetv : Matcher.netOf e.1 nets = e.2 := by
        rw [Matcher.netOf_eq_valOf]
        exact Matcher.valOf_eq_of_mem hnodup (List.mem_of_mem_filter he)
      rw [hex] at hnetv
      omega
    have hin : Matcher.inflow p (Matcher.settle 0 nets) = 0 := by
      apply Matcher.inflow_eq_zero
      intro t ht hfp
      exact hpc (hfp ▸ (hmemtx t ht).1)
    exact ⟨by omega, hin⟩

/-- C1 witness: conservation evaluated for the creditor of the spec's
Scenario A. -/
theorem settle_conserves_net_witness :
    Matcher.inflow 1 (Matcher.settle 0 Matcher.demoNets)
        = Matcher.netOf 1 Matcher.demoNets ∧
    Matcher.outflow 1 (Matcher.settle 0 Matcher.demoNets) = 0 :=
  (settle_conserves_net Matcher.demoNets (by decide) (by decide) 1).1 (by decide)

end PokerCount
